import Mathlib

/-!
Verification of the azure-iot-pnp device library's twin synchronization and
component-reconciliation engine, shallowly embedded from the TypeScript source
(`device-client.ts`, `pnp-component.ts`, `util/helpers.ts`, `pnp/writable-property.ts`).

JavaScript values reachable in the twin code paths are modelled by `JVal`
(null, booleans, integer numbers, strings, plain objects).  A plain object is
represented by its ordered own-entry list, matching `Object.entries` insertion
order; real JS objects never hold a duplicate key, which appears below as
`Nodup` hypotheses on key lists.  JS exceptions (`TypeError` from the `in`
operator or `Object.entries` on `null`) are modelled with `Except`.
-/

inductive JVal : Type where
  | null : JVal
  | bool : Bool → JVal
  | num : Int → JVal
  | str : String → JVal
  | obj : List (String × JVal) → JVal

/-- The ordered own entries of a JS object, as `Object.entries` yields them. -/
abbrev Entries := List (String × JVal)

/-- First-match association lookup: `map.get(key)` on a JS `Map`, or reading a
property of a plain object, both of which hold each key at most once. -/
def hlookup {α : Type} (m : List (String × α)) (key : String) : Option α :=
  (m.find? (fun e => e.1 == key)).map (·.2)

/-- `hasEntry es k` models the JS `k in obj` test on an object with entries `es`. -/
def hasEntry (es : Entries) (key : String) : Bool :=
  es.any (fun e => e.1 == key)

/-- `map.set(key, value)` on a JS `Map` (and sequential property assignment on a
JS object): an existing binding keeps its position and gets the new value, a
fresh key is appended at the end. -/
def setAssoc {α : Type} : List (String × α) → String → α → List (String × α)
  | [], key, value => [(key, value)]
  | (k, v) :: rest, key, value =>
    if k == key then (key, value) :: rest else (k, v) :: setAssoc rest key value

/-- `Object.fromEntries(pairs)`: pairs are assigned left to right, so a repeated
key keeps its first position and its last value. -/
def objFromEntries (es : Entries) : Entries :=
  es.foldl (fun acc e => setAssoc acc e.1 e.2) []

/-- JS truthiness of a `JVal` (`delta || {}` replaces falsy values by `{}`). -/
def jsTruthy : JVal → Bool
  | .null => false
  | .bool b => b
  | .num n => n != 0
  | .str s => s != ""
  | .obj _ => true

/-- Own enumerable entries of a non-null JS value: objects yield their fields,
primitive strings yield index/character pairs, numbers and booleans yield
nothing. -/
def jsOwnEntries : JVal → Entries
  | .obj fields => fields
  | .str s => s.data.enum.map (fun e => (toString e.1, JVal.str (String.mk [e.2])))
  | _ => []

/-- JS template-literal string conversion of a value. -/
def jsToString : JVal → String
  | .null => "null"
  | .bool b => if b then "true" else "false"
  | .num n => toString n
  | .str s => s
  | .obj _ => "[object Object]"

/-- JS object spread `\x7b...a, ...b\x7d`: the keys of `a` keep their position, a key
also present in `b` takes `b`'s value, and the remaining keys of `b` are
appended in order. -/
def jsSpread (a b : Entries) : Entries :=
  a.map (fun e => (e.1, ((hlookup b e.1).getD e.2))) ++ b.filter (fun e => !(hasEntry a e.1))

/-- Modelled from the spec: the source's `util/markers` module is not under
`src/`; the spec names a version key carried in desired deltas (its scenario
writes it `$version`). -/
def TWIN_VERSION_KEY : String := "$version"

/-- Modelled from the spec: the source's `util/markers` module is not under
`src/`; the spec's component-marker key, the reserved field identifying a twin
subtree as a component (Azure PnP convention `__t`). -/
def TWIN_COMPONENT_MARKER_KEY : String := "__t"

/-- Modelled from the spec: the component-marker object spread into every
per-component reported patch (Azure PnP convention, marker key bound to "c"). -/
def TWIN_COMPONENT_MARKER : Entries := [(TWIN_COMPONENT_MARKER_KEY, JVal.str "c")]

/-- `key.startsWith('$')` for the one-character prefix used by the source:
true iff the first character is `$`. -/
def startsWithDollar (key : String) : Bool :=
  match key.data with
  | [] => false
  | c :: _ => c == '$'

/-- The filter predicate of `filterTwinMeta` (util/helpers.ts): keep a key iff
it is not the version key, not the component marker, not `update` (the twin
library's reserved method name), and not `$`-prefixed. -/
def keepTwinKey (key : String) : Bool :=
  (key != TWIN_VERSION_KEY) && (key != TWIN_COMPONENT_MARKER_KEY)
    && (key != "update") && !(startsWithDollar key)

/-- `filterTwinMeta(delta)` (util/helpers.ts): `Object.entries(delta || \x7b\x7d)`
filtered to user keys. -/
def filterTwinMeta (delta : JVal) : Entries :=
  (jsOwnEntries (if jsTruthy delta then delta else JVal.obj [])).filter
    (fun e => keepTwinKey e.1)

/-- JS runtime errors reachable in these code paths. -/
inductive JsError : Type where
  | typeError : JsError
  deriving DecidableEq

/-- `isWritablePropertyResponse` (pnp/writable-property.ts):
`typeof v === 'object' && 'ac' in v && 'ad' in v && 'av' in v && 'value' in v`.
`typeof null` is `'object'`, so the `in` operator is then applied to `null`
and throws a `TypeError`; other primitives fail the `typeof` test. -/
def isWritablePropertyResponse (propertyValue : JVal) : Except JsError Bool :=
  match propertyValue with
  | .null => .error .typeError
  | .obj fields =>
    .ok (hasEntry fields "ac" && hasEntry fields "ad"
      && hasEntry fields "av" && hasEntry fields "value")
  | _ => .ok false

/-- `normalizeWritablePropertyAck` (util/helpers.ts): an ack envelope is
unwrapped to its `value` field, anything else passes through. -/
def normalizeWritablePropertyAck (prop : JVal) : Except JsError JVal := do
  let isAck ← isWritablePropertyResponse prop
  if isAck then
    match prop with
    | .obj fields => pure ((hlookup fields "value").getD JVal.null)
    | _ => pure prop
  else
    pure prop

/-- The `.map` step of `normalizeComponentState`, evaluated left to right as
`Array.prototype.map` does. -/
def normalizeEntries : Entries → Except JsError Entries
  | [] => .ok []
  | (key, value) :: rest => do
    let v ← normalizeWritablePropertyAck value
    let tail ← normalizeEntries rest
    pure ((key, v) :: tail)

/-- `normalizeComponentState(delta)` (util/helpers.ts): `Object.entries(delta)`
(no null guard here — `null` throws), filtered by key (version key, component
marker and `update`; no `$`-prefix test in this function), values normalized,
rebuilt with `Object.fromEntries`. -/
def normalizeComponentState (delta : JVal) : Except JsError Entries := do
  let entries ←
    match delta with
    | .null => .error .typeError
    | v => .ok (jsOwnEntries v)
  let kept := entries.filter
    (fun e =>
      (e.1 != TWIN_VERSION_KEY) && (e.1 != TWIN_COMPONENT_MARKER_KEY) && (e.1 != "update"))
  let mapped ← normalizeEntries kept
  pure (objFromEntries mapped)

/-!
Handler dispatch (`device-client.ts`).

A change handler is modelled by its observable behaviour: given the argument
value and the desired-properties version it either throws, or resolves with an
optional plain-object return value (`HOutcome.ok none` covers `void`,
`undefined` and non-object returns, whose spread contributes nothing;
`HOutcome.ok (some es)` is a resolved object with entries `es`).  Both
component-change handlers and property-change handlers live in the single
`#propertyChangeHandlers` map, exactly as in the source.
-/

inductive HOutcome : Type where
  | throws : HOutcome
  | ok : Option Entries → HOutcome

abbrev Handler := JVal → Int → HOutcome

abbrev HandlerMap := List (String × Handler)

/-- `addComponentPropertyChangeHandler(componentKey, propertyKey, handler)`:
stores the handler under the combined key `componentKey|propertyKey`. -/
def addComponentPropertyChangeHandler (handlers : HandlerMap)
    (componentKey propertyKey : String) (handler : Handler) : HandlerMap :=
  setAssoc handlers (componentKey ++ "|" ++ propertyKey) handler

/-- `addComponentChangeHandler(componentKey, handler)`: stores the handler
under the bare component key. -/
def addComponentChangeHandler (handlers : HandlerMap)
    (componentKey : String) (handler : Handler) : HandlerMap :=
  setAssoc handlers componentKey handler

/-- `PnPComponent.onWritablePropertyChange` delegates to
`addComponentPropertyChangeHandler` with the component's own key. -/
def onWritablePropertyChange (handlers : HandlerMap) (componentKey : String)
    (propertyKey : String) (handler : Handler) : HandlerMap :=
  addComponentPropertyChangeHandler handlers componentKey propertyKey handler

/-- The default success envelope `\x7bvalue, ac: 200, ad, av\x7d` built for an
acknowledged writable property. -/
def successAck (propertyKey : String) (propertyValue : JVal) (version : Int) : Entries :=
  [("value", propertyValue),
   ("ac", JVal.num 200),
   ("ad", JVal.str ("Successfully updated (" ++ propertyKey ++ ") to ("
      ++ jsToString propertyValue ++ ")")),
   ("av", JVal.num version)]

/-- The failure envelope `\x7bvalue, ac: 400, ad, av\x7d` built in the catch branch;
no handler result is spread into it. -/
def failureAck (propertyKey : String) (propertyValue : JVal) (version : Int) : Entries :=
  [("value", propertyValue),
   ("ac", JVal.num 400),
   ("ad", JVal.str ("Updating (" ++ propertyKey ++ ") state to ("
      ++ jsToString propertyValue ++ ") failed")),
   ("av", JVal.num version)]

/-- One automatic acknowledgement report: `reportComponentProperties` is always
called from the dispatch with a single-property ack patch. -/
structure Report : Type where
  componentKey : String
  propertyKey : String
  envelope : Entries

/-- The argument of the underlying `reportProperties` call that a dispatch
report produces: the ack patch spread together with the component marker under
the component key (`reportComponentProperties`). -/
def Report.patch (r : Report) : Entries :=
  [(r.componentKey,
    JVal.obj (jsSpread TWIN_COMPONENT_MARKER [(r.propertyKey, JVal.obj r.envelope)]))]

/-- A recorded invocation of a handler found under `get(propertyKey)` in the
per-property acknowledgement loop. -/
structure PropCall : Type where
  componentKey : String
  propertyKey : String
  value : JVal
  version : Int

/-- A recorded invocation of a component-change handler with the raw component
delta subtree. -/
structure CompCall : Type where
  componentKey : String
  delta : JVal
  version : Int

/-- Everything observable about one run of `#handleChangedComponentProperties`:
the report calls issued, the handler invocations made, and whether a
component-change handler threw (which aborts the remaining processing, since
that `await` is not wrapped in a try/catch). -/
structure DispatchOut : Type where
  reports : List Report
  compCalls : List CompCall
  propCalls : List PropCall
  threw : Bool

def DispatchOut.empty : DispatchOut := ⟨[], [], [], false⟩

def DispatchOut.app (a b : DispatchOut) : DispatchOut :=
  ⟨a.reports ++ b.reports, a.compCalls ++ b.compCalls,
   a.propCalls ++ b.propCalls, a.threw || b.threw⟩

/-- The envelope the per-property loop reports for `propertyKey`:
`get(propertyKey)` finds no handler — default success envelope; a handler that
resolves — its return value spread over the success envelope (`...result`); a
handler that throws — the fixed failure envelope from the catch branch. -/
def ackEnvelopeFor (handlers : HandlerMap) (propertyKey : String)
    (propertyValue : JVal) (version : Int) : Entries :=
  match hlookup handlers propertyKey with
  | none => successAck propertyKey propertyValue version
  | some handler =>
    match handler propertyValue version with
    | .ok ret => jsSpread (successAck propertyKey propertyValue version) (ret.getD [])
    | .throws => failureAck propertyKey propertyValue version

/-- Whether the per-property loop invokes a handler for `propertyKey`:
exactly when `get(propertyKey)` finds one. -/
def propHandlerInvoked (handlers : HandlerMap) (propertyKey : String) : Bool :=
  (hlookup handlers propertyKey).isSome

/-- The inner per-property loop of `#handleChangedComponentProperties` over the
metadata-stripped component delta: only keys listed in the component's
`writeableProperties` are acknowledged. -/
def processProps (handlers : HandlerMap) (componentKey : String)
    (writeableProperties : List String) (version : Int) :
    Entries → List Report × List PropCall
  | [] => ([], [])
  | (propertyKey, propertyValue) :: rest =>
    if writeableProperties.contains propertyKey then
      (⟨componentKey, propertyKey, ackEnvelopeFor handlers propertyKey propertyValue version⟩
         :: (processProps handlers componentKey writeableProperties version rest).1,
       (if propHandlerInvoked handlers propertyKey
        then [⟨componentKey, propertyKey, propertyValue, version⟩] else [])
         ++ (processProps handlers componentKey writeableProperties version rest).2)
    else processProps handlers componentKey writeableProperties version rest

/-- The middle loop of `#handleChangedComponentProperties` for one registered
component: skip delta entries for other keys; on a match invoke the
component-change handler (if any) with the raw subtree — a throw there
propagates, aborting everything — then run the per-property loop on the
metadata-stripped subtree. -/
def processChanged (handlers : HandlerMap) (componentKey : String)
    (writeableProperties : List String) (version : Int) : Entries → DispatchOut
  | [] => DispatchOut.empty
  | (changedComponentKey, changedComponentDelta) :: rest =>
    if changedComponentKey == componentKey then
      match hlookup handlers componentKey with
      | some componentChangeHandler =>
        match componentChangeHandler changedComponentDelta version with
        | .throws => ⟨[], [⟨componentKey, changedComponentDelta, version⟩], [], true⟩
        | .ok _ =>
          DispatchOut.app
            ⟨(processProps handlers componentKey writeableProperties version
                (filterTwinMeta changedComponentDelta)).1,
             [⟨componentKey, changedComponentDelta, version⟩],
             (processProps handlers componentKey writeableProperties version
                (filterTwinMeta changedComponentDelta)).2,
             false⟩
            (processChanged handlers componentKey writeableProperties version rest)
      | none =>
        DispatchOut.app
          ⟨(processProps handlers componentKey writeableProperties version
              (filterTwinMeta changedComponentDelta)).1,
           [],
           (processProps handlers componentKey writeableProperties version
              (filterTwinMeta changedComponentDelta)).2,
           false⟩
          (processChanged handlers componentKey writeableProperties version rest)
    else processChanged handlers componentKey writeableProperties version rest

/-- `#handleChangedComponentProperties(version, changedComponents)`: the outer
loop over the registered components (a `Map`, so keys are unique and iterated
in insertion order); an uncaught component-handler throw stops the remaining
components as well. -/
def handleChangedComponentProperties :
    List (String × List String) → HandlerMap → Int → Entries → DispatchOut
  | [], _, _, _ => DispatchOut.empty
  | (componentKey, writeableProperties) :: rest, handlers, version, changedComponents =>
    if (processChanged handlers componentKey writeableProperties version
        changedComponents).threw then
      processChanged handlers componentKey writeableProperties version changedComponents
    else
      DispatchOut.app
        (processChanged handlers componentKey writeableProperties version changedComponents)
        (handleChangedComponentProperties rest handlers version changedComponents)

/-!
Component registry (`DeviceClient.registerComponent`).  A component instance is
determined by the `componentKey` and `writeableProperties` its constructor
fixes; registration stores it in the `#components` map with `Map.set`.
-/

structure ClientState : Type where
  modelId : String
  components : List (String × List String)
  deriving DecidableEq

inductive RegistrationError : Type where
  | noModelIdAssigned : RegistrationError
  deriving DecidableEq

/-- `registerComponent` (device-client.ts): throw `NoModelIdAssignedError` when
no modelId is assigned (falsy string), otherwise `#components.set(key, instance)`
— there is no check whether the key is already registered. -/
def registerComponent (st : ClientState) (componentKey : String)
    (writeableProperties : List String) : Except RegistrationError ClientState :=
  if st.modelId == "" then .error .noModelIdAssigned
  else .ok { st with components := setAssoc st.components componentKey writeableProperties }

/-!
The initial-connect retry helper (`device-client.ts`).  A settled JS promise is
modelled by an identity and its outcome; `promise.catch(handler)` creates a
fresh derived promise that adopts the original resolution, or on rejection the
outcome of the promise the handler returns.  `retry` attaches `retries` catch
handlers to the one promise it was given — each handler just returns that same
promise — discards the derived promises, and returns the original promise.
-/

inductive POutcome (ε α : Type) : Type where
  | rejected : ε → POutcome ε α
  | resolved : α → POutcome ε α
  deriving DecidableEq

structure JsPromise (ε α : Type) : Type where
  pid : Nat
  outcome : POutcome ε α
  deriving DecidableEq

/-- `p.catch(h)` on an eventually-settled promise `p`, the derived promise
carrying a fresh identity. -/
def catchP {ε α : Type} (fresh : Nat) (p : JsPromise ε α)
    (handler : ε → JsPromise ε α) : JsPromise ε α :=
  match p.outcome with
  | .resolved a => ⟨fresh, .resolved a⟩
  | .rejected e => ⟨fresh, (handler e).outcome⟩

/-- The `retryHandler(currentRetry, totalRetries)` closure of `retry`: it logs
and returns the one original promise. -/
def retryHandler {ε α : Type} (p : JsPromise ε α) : ε → JsPromise ε α :=
  fun _ => p

/-- `retry(promise, retries)` (device-client.ts): the loop attaches one catch
handler per retry slot to `promise` (the derived promises are discarded — here
they are the second component) and returns `promise` itself, which is what
`DeviceClient.create` awaits. -/
def retry {ε α : Type} (p : JsPromise ε α) (retries : Nat) :
    JsPromise ε α × List (JsPromise ε α) :=
  (p, (List.range retries).map (fun attempt => catchP (p.pid + attempt + 1) p (retryHandler p)))

/-!
Lifecycle signals (`device-client.ts`).  Each signal is an rxjs
`ReplaySubject` with buffer size 1: it keeps its subscriber list and the last
emitted value, and a late subscriber immediately receives that value.  At the
end of every `connect()` call — first connect and reuse branch alike — the
client runs `this.disconnected$.subscribe(() => this.connect(modelId))`;
nothing ever unsubscribes.
-/

structure ReplaySubject (α : Type) (η : Type) : Type where
  subs : List η
  last : Option α

/-- `subject.subscribe(h)`: append the handler; the second component lists the
buffered values immediately replayed to the new subscriber. -/
def ReplaySubject.subscribe {α η : Type} (s : ReplaySubject α η) (h : η) :
    ReplaySubject α η × List α :=
  ({ s with subs := s.subs ++ [h] },
   match s.last with
   | some a => [a]
   | none => [])

/-- `subject.next(a)`: buffer the value and deliver it to every current
subscriber, in subscription order. -/
def ReplaySubject.next {α η : Type} (s : ReplaySubject α η) (a : α) :
    ReplaySubject α η × List η :=
  ({ s with last := some a }, s.subs)

/-- An event on `disconnected$` (`Error | void`). -/
inductive DisconnectEvent : Type where
  | noError : DisconnectEvent
  | withError : DisconnectEvent
  deriving DecidableEq

/-- The reconnect closure `() => this.connect(modelId)` that `connect()`
subscribes on `disconnected$`. -/
structure ReconnectSub : Type where
  modelId : String
  deriving DecidableEq

/-- The effect of one completed `connect(modelId)` execution on the
`disconnected$` subject: one more reconnect subscription, never removed. -/
def connectFinish (modelId : String)
    (s : ReplaySubject DisconnectEvent ReconnectSub) :
    ReplaySubject DisconnectEvent ReconnectSub :=
  (s.subscribe ⟨modelId⟩).1

/-- `#disconnected$ = new ReplaySubject<Error | void>(1)` of a fresh client:
no subscribers, nothing buffered yet. -/
def freshDisconnectedSubject : ReplaySubject DisconnectEvent ReconnectSub :=
  ⟨[], none⟩

/-- The reports selected for component `ck` and property `P`. -/
def forKP (ck P : String) (r : Report) : Bool :=
  (r.componentKey == ck) && (r.propertyKey == P)

/-- No component-change handler found for any registered component throws on a
matching delta entry: the hypothesis under which a dispatch runs to completion. -/
def NoCompThrow (components : List (String × List String)) (hs : HandlerMap)
    (ver : Int) (changed : Entries) : Prop :=
  ∀ ck cws, (ck, cws) ∈ components → ∀ dv, (ck, dv) ∈ changed →
    ∀ handler, hlookup hs ck = some handler → handler dv ver ≠ HOutcome.throws

/-! Basic facts about the association-list operations. -/

theorem hlookup_setAssoc_self {α : Type} (m : List (String × α)) (k : String) (v : α) :
    hlookup (setAssoc m k v) k = some v := by
  induction m with
  | nil => simp [setAssoc, hlookup]
  | cons e rest ih =>
    by_cases h : e.1 = k
    · simp [setAssoc, hlookup, h]
    · simpa [setAssoc, hlookup, h] using ih

theorem setAssoc_length_of_mem {α : Type} (m : List (String × α)) (k : String) (v : α)
    (h : k ∈ m.map Prod.fst) : (setAssoc m k v).length = m.length := by
  induction m with
  | nil => simp at h
  | cons e rest ih =>
    by_cases hk : e.1 = k
    · simp [setAssoc, hk]
    · have hmem : k ∈ rest.map Prod.fst := by
        simp only [List.map_cons, List.mem_cons] at h
        rcases h with h | h
        · exact absurd h.symm hk
        · exact h
      simp [setAssoc, hk, ih hmem]

theorem setAssoc_of_not_mem {α : Type} (m : List (String × α)) (k : String) (v : α)
    (h : k ∉ m.map Prod.fst) : setAssoc m k v = m ++ [(k, v)] := by
  induction m with
  | nil => simp [setAssoc]
  | cons e rest ih =>
    have hk : ¬ e.1 = k := by
      intro hh
      exact h (by simp [hh])
    have hmem : k ∉ rest.map Prod.fst := by
      intro hh
      exact h (by simp [hh])
    simp [setAssoc, hk, ih hmem]

theorem assoc_mem_functional {α : Type} {m : List (String × α)} {k : String} {a b : α}
    (hnd : (m.map Prod.fst).Nodup) (ha : (k, a) ∈ m) (hb : (k, b) ∈ m) : a = b := by
  induction m with
  | nil => simp at ha
  | cons e rest ih =>
    simp only [List.map_cons, List.nodup_cons] at hnd
    rcases List.mem_cons.mp ha with ha1 | ha1 <;> rcases List.mem_cons.mp hb with hb1 | hb1
    · subst ha1
      exact (Prod.mk.injEq _ _ _ _ ▸ hb1 : k = k ∧ b = a).2.symm
    · subst ha1
      exact absurd (List.mem_map.mpr ⟨(k, b), hb1, rfl⟩) hnd.1
    · subst hb1
      exact absurd (List.mem_map.mpr ⟨(k, a), ha1, rfl⟩) hnd.1
    · exact ih hnd.2 ha1 hb1

theorem foldl_setAssoc_nodup {α : Type} (l : List (String × α)) :
    ∀ acc : List (String × α), (l.map Prod.fst).Nodup →
    (∀ k, k ∈ l.map Prod.fst → k ∉ acc.map Prod.fst) →
    l.foldl (fun a e => setAssoc a e.1 e.2) acc = acc ++ l := by
  induction l with
  | nil => intro acc _ _; simp
  | cons e rest ih =>
    intro acc hnd hdisj
    simp only [List.map_cons, List.nodup_cons] at hnd
    have hstep : setAssoc acc e.1 e.2 = acc ++ [e] := by
      rw [setAssoc_of_not_mem acc e.1 e.2 (hdisj e.1 (by simp))]
    have hdisj2 : ∀ k, k ∈ rest.map Prod.fst → k ∉ (acc ++ [e]).map Prod.fst := by
      intro k hk
      simp only [List.map_append, List.mem_append, List.map_cons, List.mem_singleton]
      rintro (hmem | hmem)
      · exact hdisj k (by simp [hk]) hmem
      · simp at hmem
        exact hnd.1 (hmem ▸ hk)
    calc List.foldl (fun a e => setAssoc a e.1 e.2) acc (e :: rest)
        = List.foldl (fun a e => setAssoc a e.1 e.2) (acc ++ [e]) rest := by
          simp [List.foldl_cons, hstep]
      _ = (acc ++ [e]) ++ rest := ih (acc ++ [e]) hnd.2 hdisj2
      _ = acc ++ (e :: rest) := by simp

theorem objFromEntries_of_nodup (l : Entries) (hnd : (l.map Prod.fst).Nodup) :
    objFromEntries l = l := by
  simpa [objFromEntries] using foldl_setAssoc_nodup l [] hnd (by simp)

theorem setAssoc_keys_subset {α : Type} (m : List (String × α)) (k key : String) (v : α)
    (h : key ∈ (setAssoc m k v).map Prod.fst) : key ∈ m.map Prod.fst ∨ key = k := by
  induction m with
  | nil => simpa [setAssoc] using h
  | cons e rest ih =>
    by_cases hk : e.1 = k
    · simp only [setAssoc, hk, beq_self_eq_true, if_true] at h
      simp only [List.map_cons, List.mem_cons] at h ⊢
      rcases h with h | h
      · exact Or.inr h
      · exact Or.inl (Or.inr h)
    · simp only [setAssoc, beq_iff_eq, hk, if_false, List.map_cons, List.mem_cons] at h
      rcases h with h | h
      · exact Or.inl (by simp [h])
      · rcases ih h with hh | hh
        · exact Or.inl (by simp [hh])
        · exact Or.inr hh

theorem foldl_setAssoc_keys {α : Type} (l : List (String × α)) (key : String) :
    ∀ acc : List (String × α),
      key ∈ ((l.foldl (fun a e => setAssoc a e.1 e.2) acc).map Prod.fst) →
      key ∈ acc.map Prod.fst ∨ key ∈ l.map Prod.fst := by
  induction l with
  | nil => intro acc hacc; exact Or.inl (by simpa using hacc)
  | cons e rest ih =>
    intro acc hacc
    simp only [List.foldl_cons] at hacc
    rcases ih (setAssoc acc e.1 e.2) hacc with hh | hh
    · rcases setAssoc_keys_subset acc e.1 key e.2 hh with hh2 | hh2
      · exact Or.inl hh2
      · exact Or.inr (by simp [hh2])
    · exact Or.inr (by simp [hh])

theorem objFromEntries_keys_subset (l : Entries) (key : String)
    (h : key ∈ (objFromEntries l).map Prod.fst) : key ∈ l.map Prod.fst := by
  rcases foldl_setAssoc_keys l key [] (by simpa [objFromEntries] using h) with hh | hh
  · simp at hh
  · exact hh

/-! Facts about the twin codec. -/

theorem jsSpread_nil_right (a : Entries) : jsSpread a [] = a := by
  simp [jsSpread, hlookup]

theorem filterTwinMeta_obj (fields : Entries) :
    filterTwinMeta (JVal.obj fields) = fields.filter (fun e => keepTwinKey e.1) := rfl

theorem keepTwinKey_of_mem_filterTwinMeta {t : JVal} {key : String}
    (h : key ∈ (filterTwinMeta t).map Prod.fst) : keepTwinKey key = true := by
  rcases List.mem_map.mp h with ⟨e, he, hfst⟩
  have := (List.mem_filter.mp he).2
  simpa [hfst] using this

theorem mem_filterTwinMeta_obj {fields : Entries} {P : String} {v : JVal}
    (hmem : (P, v) ∈ fields) (hkeep : keepTwinKey P = true) :
    (P, v) ∈ filterTwinMeta (JVal.obj fields) := by
  rw [filterTwinMeta_obj]
  exact List.mem_filter.mpr ⟨hmem, hkeep⟩

theorem filterTwinMeta_obj_keys_nodup {fields : Entries}
    (hnd : (fields.map Prod.fst).Nodup) :
    ((filterTwinMeta (JVal.obj fields)).map Prod.fst).Nodup := by
  rw [filterTwinMeta_obj]
  exact hnd.sublist (List.Sublist.map Prod.fst (List.filter_sublist fields))

theorem normalizeEntries_keys :
    ∀ {l l' : Entries}, normalizeEntries l = .ok l' → l'.map Prod.fst = l.map Prod.fst := by
  intro l
  induction l with
  | nil =>
    intro l' h
    simp only [normalizeEntries, Except.ok.injEq] at h
    simp [← h]
  | cons e rest ih =>
    intro l' h
    obtain ⟨k, v⟩ := e
    simp only [normalizeEntries, bind, Except.bind] at h
    cases hv : normalizeWritablePropertyAck v with
    | error err => rw [hv] at h; exact absurd h (by simp)
    | ok v2 =>
      rw [hv] at h
      cases ht : normalizeEntries rest with
      | error err => rw [ht] at h; exact absurd h (by simp)
      | ok tail =>
        rw [ht] at h
        simp only [pure, Except.pure, Except.ok.injEq] at h
        rw [← h]
        simp [ih ht]

/-! Facts about the dispatch loops. -/

theorem DispatchOut.app_reports (a b : DispatchOut) :
    (a.app b).reports = a.reports ++ b.reports := rfl

theorem DispatchOut.app_compCalls (a b : DispatchOut) :
    (a.app b).compCalls = a.compCalls ++ b.compCalls := rfl

theorem DispatchOut.app_propCalls (a b : DispatchOut) :
    (a.app b).propCalls = a.propCalls ++ b.propCalls := rfl

theorem DispatchOut.app_threw (a b : DispatchOut) :
    (a.app b).threw = (a.threw || b.threw) := rfl

theorem processProps_reports_mem {hs : HandlerMap} {ck : String} {ws : List String}
    {ver : Int} :
    ∀ {props : Entries} {r : Report}, r ∈ (processProps hs ck ws ver props).1 →
      r.componentKey = ck ∧ r.propertyKey ∈ props.map Prod.fst ∧ r.propertyKey ∈ ws := by
  intro props
  induction props with
  | nil => intro r h; simp [processProps] at h
  | cons e rest ih =>
    intro r h
    obtain ⟨P, v⟩ := e
    by_cases hw : ws.contains P = true
    · simp only [processProps, if_pos hw] at h
      rcases List.mem_cons.mp h with h1 | h1
      · subst h1
        exact ⟨rfl, by simp, by simpa using hw⟩
      · obtain ⟨g1, g2, g3⟩ := ih h1
        exact ⟨g1, by simp [g2], g3⟩
    · simp only [processProps, if_neg hw] at h
      obtain ⟨g1, g2, g3⟩ := ih h
      exact ⟨g1, by simp [g2], g3⟩

theorem processProps_propCalls_mem {hs : HandlerMap} {ck : String} {ws : List String}
    {ver : Int} :
    ∀ {props : Entries} {c : PropCall}, c ∈ (processProps hs ck ws ver props).2 →
      c.componentKey = ck ∧ c.propertyKey ∈ props.map Prod.fst ∧ c.propertyKey ∈ ws := by
  intro props
  induction props with
  | nil => intro c h; simp [processProps] at h
  | cons e rest ih =>
    intro c h
    obtain ⟨P, v⟩ := e
    by_cases hw : ws.contains P = true
    · simp only [processProps, if_pos hw, List.mem_append] at h
      rcases h with h1 | h1
      · by_cases hi : propHandlerInvoked hs P = true
        · rw [if_pos hi] at h1
          rcases List.mem_singleton.mp h1 with rfl
          exact ⟨rfl, by simp, by simpa using hw⟩
        · rw [if_neg hi] at h1
          simp at h1
      · obtain ⟨g1, g2, g3⟩ := ih h1
        exact ⟨g1, by simp [g2], g3⟩
    · simp only [processProps, if_neg hw] at h
      obtain ⟨g1, g2, g3⟩ := ih h
      exact ⟨g1, by simp [g2], g3⟩

theorem processProps_filter {hs : HandlerMap} {ck : String} {ws : List String} {ver : Int} :
    ∀ {props : Entries} {P : String} {v : JVal},
      (props.map Prod.fst).Nodup → (P, v) ∈ props → P ∈ ws →
      (processProps hs ck ws ver props).1.filter (forKP ck P) =
        [⟨ck, P, ackEnvelopeFor hs P v ver⟩] := by
  intro props
  induction props with
  | nil => intro P v _ hmem _; simp at hmem
  | cons e rest ih =>
    intro P v hnd hmem hws
    obtain ⟨q, w⟩ := e
    simp only [List.map_cons, List.nodup_cons] at hnd
    rcases List.mem_cons.mp hmem with h1 | h1
    · injection h1 with hq hv
      subst hq
      subst hv
      have hw : ws.contains P = true := by simpa using hws
      simp only [processProps, if_pos hw]
      rw [List.filter_cons_of_pos (by simp [forKP])]
      simp only [List.cons.injEq]
      refine ⟨trivial, ?_⟩
      apply List.filter_eq_nil_iff.mpr
      intro r hr
      have hkey := (processProps_reports_mem hr).2.1
      intro hfk
      simp only [forKP, Bool.and_eq_true, beq_iff_eq] at hfk
      exact hnd.1 (hfk.2 ▸ hkey)
    · have hq : q ≠ P := by
        intro hh
        exact hnd.1 (hh ▸ List.mem_map.mpr ⟨(P, v), h1, rfl⟩)
      by_cases hw : ws.contains q = true
      · simp only [processProps, if_pos hw]
        rw [List.filter_cons_of_neg (by simp [forKP, hq])]
        exact ih hnd.2 h1 hws
      · simp only [processProps, if_neg hw]
        exact ih hnd.2 h1 hws

theorem processChanged_skip {hs : HandlerMap} {ck : String} {ws : List String} {ver : Int} :
    ∀ {changed : Entries}, ck ∉ changed.map Prod.fst →
      processChanged hs ck ws ver changed = DispatchOut.empty := by
  intro changed
  induction changed with
  | nil => intro _; rfl
  | cons e rest ih =>
    intro h
    obtain ⟨dk, dv⟩ := e
    have hne : ¬ ((dk == ck) = true) := by
      simp only [beq_iff_eq]
      intro hh
      exact h (by simp [hh])
    simp only [processChanged, if_neg hne]
    exact ih (fun hh => h (by simp [hh]))

theorem processChanged_reports_mem {hs : HandlerMap} {ck : String} {ws : List String}
    {ver : Int} :
    ∀ {changed : Entries} {r : Report}, r ∈ (processChanged hs ck ws ver changed).reports →
      r.componentKey = ck ∧ r.propertyKey ∈ ws ∧ keepTwinKey r.propertyKey = true := by
  intro changed
  induction changed with
  | nil => intro r h; simp [processChanged, DispatchOut.empty] at h
  | cons e rest ih =>
    intro r h
    obtain ⟨dk, dv⟩ := e
    by_cases hk : (dk == ck) = true
    · cases hcl : hlookup hs ck with
      | none =>
        simp only [processChanged, if_pos hk, hcl, DispatchOut.app_reports,
          List.mem_append] at h
        rcases h with h1 | h1
        · obtain ⟨g1, g2, g3⟩ := processProps_reports_mem h1
          exact ⟨g1, g3, keepTwinKey_of_mem_filterTwinMeta g2⟩
        · exact ih h1
      | some handler =>
        cases hout : handler dv ver with
        | throws =>
          simp only [processChanged, if_pos hk, hcl, hout] at h
          simp at h
        | ok ret =>
          simp only [processChanged, if_pos hk, hcl, hout, DispatchOut.app_reports,
            List.mem_append] at h
          rcases h with h1 | h1
          · obtain ⟨g1, g2, g3⟩ := processProps_reports_mem h1
            exact ⟨g1, g3, keepTwinKey_of_mem_filterTwinMeta g2⟩
          · exact ih h1
    · simp only [processChanged, if_neg hk] at h
      exact ih h

theorem processChanged_propCalls_mem {hs : HandlerMap} {ck : String} {ws : List String}
    {ver : Int} :
    ∀ {changed : Entries} {c : PropCall}, c ∈ (processChanged hs ck ws ver changed).propCalls →
      c.componentKey = ck ∧ c.propertyKey ∈ ws ∧ keepTwinKey c.propertyKey = true := by
  intro changed
  induction changed with
  | nil => intro c h; simp [processChanged, DispatchOut.empty] at h
  | cons e rest ih =>
    intro c h
    obtain ⟨dk, dv⟩ := e
    by_cases hk : (dk == ck) = true
    · cases hcl : hlookup hs ck with
      | none =>
        simp only [processChanged, if_pos hk, hcl, DispatchOut.app_propCalls,
          List.mem_append] at h
        rcases h with h1 | h1
        · obtain ⟨g1, g2, g3⟩ := processProps_propCalls_mem h1
          exact ⟨g1, g3, keepTwinKey_of_mem_filterTwinMeta g2⟩
        · exact ih h1
      | some handler =>
        cases hout : handler dv ver with
        | throws =>
          simp only [processChanged, if_pos hk, hcl, hout] at h
          simp at h
        | ok ret =>
          simp only [processChanged, if_pos hk, hcl, hout, DispatchOut.app_propCalls,
            List.mem_append] at h
          rcases h with h1 | h1
          · obtain ⟨g1, g2, g3⟩ := processProps_propCalls_mem h1
            exact ⟨g1, g3, keepTwinKey_of_mem_filterTwinMeta g2⟩
          · exact ih h1
    · simp only [processChanged, if_neg hk] at h
      exact ih h

theorem processChanged_threw {hs : HandlerMap} {ck : String} {ws : List String} {ver : Int} :
    ∀ {changed : Entries},
      (∀ dv, (ck, dv) ∈ changed → ∀ handler, hlookup hs ck = some handler →
        handler dv ver ≠ HOutcome.throws) →
      (processChanged hs ck ws ver changed).threw = false := by
  intro changed
  induction changed with
  | nil => intro _; rfl
  | cons e rest ih =>
    intro hno
    obtain ⟨dk, dv⟩ := e
    have htail : ∀ dv2, (ck, dv2) ∈ rest → ∀ handler, hlookup hs ck = some handler →
        handler dv2 ver ≠ HOutcome.throws :=
      fun dv2 hmem => hno dv2 (List.mem_cons_of_mem _ hmem)
    by_cases hk : (dk == ck) = true
    · have hdk : dk = ck := beq_iff_eq.mp hk
      cases hcl : hlookup hs ck with
      | none =>
        simp only [processChanged, if_pos hk, hcl, DispatchOut.app_threw]
        simp [ih htail]
      | some handler =>
        cases hout : handler dv ver with
        | throws =>
          exact absurd hout (hno dv (by simp [hdk]) handler hcl)
        | ok ret =>
          simp only [processChanged, if_pos hk, hcl, hout, DispatchOut.app_threw]
          simp [ih htail]
    · simp only [processChanged, if_neg hk]
      exact ih htail

theorem processChanged_filter {hs : HandlerMap} {ck : String} {ws : List String}
    {ver : Int} {P : String} :
    ∀ {changed : Entries} {sub : Entries},
      (changed.map Prod.fst).Nodup →
      (ck, JVal.obj sub) ∈ changed →
      (∀ dv, (ck, dv) ∈ changed → ∀ handler, hlookup hs ck = some handler →
        handler dv ver ≠ HOutcome.throws) →
      (processChanged hs ck ws ver changed).reports.filter (forKP ck P) =
        (processProps hs ck ws ver (filterTwinMeta (JVal.obj sub))).1.filter (forKP ck P) := by
  intro changed
  induction changed with
  | nil => intro sub _ hcm _; simp at hcm
  | cons e rest ih =>
    intro sub hnd hcm hno
    obtain ⟨dk, dv⟩ := e
    simp only [List.map_cons, List.nodup_cons] at hnd
    have htail : ∀ dv2, (ck, dv2) ∈ rest → ∀ handler, hlookup hs ck = some handler →
        handler dv2 ver ≠ HOutcome.throws :=
      fun dv2 hmem => hno dv2 (List.mem_cons_of_mem _ hmem)
    rcases List.mem_cons.mp hcm with h1 | h1
    · injection h1 with hdk hdv
      subst hdk
      subst hdv
      have hk : (ck == ck) = true := by simp
      have hskip : processChanged hs ck ws ver rest = DispatchOut.empty :=
        processChanged_skip hnd.1
      cases hcl : hlookup hs ck with
      | none =>
        simp only [processChanged, if_pos hk, hcl, hskip, DispatchOut.app_reports,
          DispatchOut.empty, List.append_nil]
      | some handler =>
        cases hout : handler (JVal.obj sub) ver with
        | throws =>
          exact absurd hout (hno (JVal.obj sub) (by simp) handler hcl)
        | ok ret =>
          simp only [processChanged, if_pos hk, hcl, hout, hskip, DispatchOut.app_reports,
            DispatchOut.empty, List.append_nil]
    · have hne : ¬ ((dk == ck) = true) := by
        simp only [beq_iff_eq]
        intro hh
        exact hnd.1 (hh ▸ List.mem_map.mpr ⟨(ck, JVal.obj sub), h1, rfl⟩)
      simp only [processChanged, if_neg hne]
      exact ih hnd.2 h1 htail

theorem processChanged_compCall_mem {hs : HandlerMap} {ck : String} {ws : List String}
    {ver : Int} :
    ∀ {changed : Entries} {dv : JVal}, (ck, dv) ∈ changed →
      (∀ dv2, (ck, dv2) ∈ changed → ∀ handler, hlookup hs ck = some handler →
        handler dv2 ver ≠ HOutcome.throws) →
      ∀ {handler}, hlookup hs ck = some handler →
      (⟨ck, dv, ver⟩ : CompCall) ∈ (processChanged hs ck ws ver changed).compCalls := by
  intro changed
  induction changed with
  | nil => intro dv h; simp at h
  | cons e rest ih =>
    intro dv hcm hno handler hcl
    obtain ⟨dk, dv0⟩ := e
    have htail : ∀ dv2, (ck, dv2) ∈ rest → ∀ handler2, hlookup hs ck = some handler2 →
        handler2 dv2 ver ≠ HOutcome.throws :=
      fun dv2 hmem => hno dv2 (List.mem_cons_of_mem _ hmem)
    rcases List.mem_cons.mp hcm with h1 | h1
    · injection h1 with hdk hdv
      subst hdk
      subst hdv
      have hk : (ck == ck) = true := by simp
      cases hout : handler dv ver with
      | throws => exact absurd hout (hno dv (by simp) handler hcl)
      | ok ret =>
        simp only [processChanged, if_pos hk, hcl, hout, DispatchOut.app_compCalls]
        simp
    · by_cases hk : (dk == ck) = true
      · cases hout : handler dv0 ver with
        | throws => exact absurd hout (hno dv0 (by simp [beq_iff_eq.mp hk]) handler hcl)
        | ok ret =>
          simp only [processChanged, if_pos hk, hcl, hout, DispatchOut.app_compCalls,
            List.mem_append]
          exact Or.inr (ih h1 htail hcl)
      · simp only [processChanged, if_neg hk]
        exact ih h1 htail hcl

theorem handleChanged_threw {hs : HandlerMap} {ver : Int} {changed : Entries} :
    ∀ {components : List (String × List String)}, NoCompThrow components hs ver changed →
      (handleChangedComponentProperties components hs ver changed).threw = false := by
  intro components
  induction components with
  | nil => intro _; rfl
  | cons e rest ih =>
    intro hno
    obtain ⟨ck, cws⟩ := e
    have hhead : (processChanged hs ck cws ver changed).threw = false :=
      processChanged_threw (fun dv hdv => hno ck cws (by simp) dv hdv)
    have htail : NoCompThrow rest hs ver changed :=
      fun ck2 cws2 hmem => hno ck2 cws2 (List.mem_cons_of_mem _ hmem)
    simp only [handleChangedComponentProperties, hhead, if_false, Bool.false_eq_true,
      DispatchOut.app_threw, ih htail, Bool.or_self]

theorem handleChanged_reports_mem {hs : HandlerMap} {ver : Int} {changed : Entries} :
    ∀ {components : List (String × List String)} {r : Report},
      r ∈ (handleChangedComponentProperties components hs ver changed).reports →
      ∃ ck cws, (ck, cws) ∈ components ∧ r.componentKey = ck ∧ r.propertyKey ∈ cws
        ∧ keepTwinKey r.propertyKey = true := by
  intro components
  induction components with
  | nil => intro r h; simp [handleChangedComponentProperties, DispatchOut.empty] at h
  | cons e rest ih =>
    intro r h
    obtain ⟨ck, cws⟩ := e
    cases ht : (processChanged hs ck cws ver changed).threw with
    | true =>
      simp only [handleChangedComponentProperties, ht, if_true] at h
      obtain ⟨g1, g2, g3⟩ := processChanged_reports_mem h
      exact ⟨ck, cws, by simp, g1, g2, g3⟩
    | false =>
      simp only [handleChangedComponentProperties, ht, Bool.false_eq_true, if_false,
        DispatchOut.app_reports, List.mem_append] at h
      rcases h with h1 | h1
      · obtain ⟨g1, g2, g3⟩ := processChanged_reports_mem h1
        exact ⟨ck, cws, by simp, g1, g2, g3⟩
      · obtain ⟨ck2, cws2, hmem, g1, g2, g3⟩ := ih h1
        exact ⟨ck2, cws2, List.mem_cons_of_mem _ hmem, g1, g2, g3⟩

theorem handleChanged_propCalls_mem {hs : HandlerMap} {ver : Int} {changed : Entries} :
    ∀ {components : List (String × List String)} {c : PropCall},
      c ∈ (handleChangedComponentProperties components hs ver changed).propCalls →
      ∃ ck cws, (ck, cws) ∈ components ∧ c.componentKey = ck ∧ c.propertyKey ∈ cws
        ∧ keepTwinKey c.propertyKey = true := by
  intro components
  induction components with
  | nil => intro c h; simp [handleChangedComponentProperties, DispatchOut.empty] at h
  | cons e rest ih =>
    intro c h
    obtain ⟨ck, cws⟩ := e
    cases ht : (processChanged hs ck cws ver changed).threw with
    | true =>
      simp only [handleChangedComponentProperties, ht, if_true] at h
      obtain ⟨g1, g2, g3⟩ := processChanged_propCalls_mem h
      exact ⟨ck, cws, by simp, g1, g2, g3⟩
    | false =>
      simp only [handleChangedComponentProperties, ht, Bool.false_eq_true, if_false,
        DispatchOut.app_propCalls, List.mem_append] at h
      rcases h with h1 | h1
      · obtain ⟨g1, g2, g3⟩ := processChanged_propCalls_mem h1
        exact ⟨ck, cws, by simp, g1, g2, g3⟩
      · obtain ⟨ck2, cws2, hmem, g1, g2, g3⟩ := ih h1
        exact ⟨ck2, cws2, List.mem_cons_of_mem _ hmem, g1, g2, g3⟩

theorem handleChanged_filter {hs : HandlerMap} {ver : Int} {changed : Entries}
    {k P : String} {ws : List String} {sub : Entries} :
    ∀ {components : List (String × List String)},
      (components.map Prod.fst).Nodup →
      (k, ws) ∈ components →
      (changed.map Prod.fst).Nodup →
      (k, JVal.obj sub) ∈ changed →
      NoCompThrow components hs ver changed →
      (handleChangedComponentProperties components hs ver changed).reports.filter
          (forKP k P) =
        (processProps hs k ws ver (filterTwinMeta (JVal.obj sub))).1.filter (forKP k P) := by
  intro components
  induction components with
  | nil => intro _ hkm _ _ _; simp at hkm
  | cons e rest ih =>
    intro hnd hkm hndc hcm hno
    obtain ⟨ck, cws⟩ := e
    simp only [List.map_cons, List.nodup_cons] at hnd
    have hheadno : ∀ dv, (ck, dv) ∈ changed → ∀ handler, hlookup hs ck = some handler →
        handler dv ver ≠ HOutcome.throws :=
      fun dv hdv => hno ck cws (by simp) dv hdv
    have htailno : NoCompThrow rest hs ver changed :=
      fun ck2 cws2 hmem => hno ck2 cws2 (List.mem_cons_of_mem _ hmem)
    have ht : (processChanged hs ck cws ver changed).threw = false :=
      processChanged_threw hheadno
    rcases List.mem_cons.mp hkm with h1 | h1
    · injection h1 with hck hws
      subst hck
      subst hws
      simp only [handleChangedComponentProperties, ht, Bool.false_eq_true, if_false,
        DispatchOut.app_reports, List.filter_append]
      have hrest : (handleChangedComponentProperties rest hs ver changed).reports.filter
          (forKP k P) = [] := by
        apply List.filter_eq_nil_iff.mpr
        intro r hr
        obtain ⟨ck2, cws2, hmem, g1, _, _⟩ := handleChanged_reports_mem hr
        intro hfk
        simp only [forKP, Bool.and_eq_true, beq_iff_eq] at hfk
        exact hnd.1 (by
          refine List.mem_map.mpr ⟨(ck2, cws2), hmem, ?_⟩
          simp [← g1, hfk.1])
      rw [hrest, List.append_nil]
      exact processChanged_filter hndc hcm hheadno
    · have hckk : ck ≠ k := by
        intro hh
        exact hnd.1 (hh ▸ List.mem_map.mpr ⟨(k, ws), h1, rfl⟩)
      simp only [handleChangedComponentProperties, ht, Bool.false_eq_true, if_false,
        DispatchOut.app_reports, List.filter_append]
      have hhead : (processChanged hs ck cws ver changed).reports.filter (forKP k P) = [] := by
        apply List.filter_eq_nil_iff.mpr
        intro r hr
        have g1 := (processChanged_reports_mem hr).1
        intro hfk
        simp only [forKP, Bool.and_eq_true, beq_iff_eq] at hfk
        exact hckk (g1.symm.trans hfk.1)
      rw [hhead, List.nil_append]
      exact ih hnd.2 h1 hndc hcm htailno

theorem handleChanged_compCall_mem {hs : HandlerMap} {ver : Int} {changed : Entries}
    {k : String} {ws : List String} {dv : JVal} :
    ∀ {components : List (String × List String)},
      (k, ws) ∈ components →
      (k, dv) ∈ changed →
      NoCompThrow components hs ver changed →
      ∀ {handler}, hlookup hs k = some handler →
      (⟨k, dv, ver⟩ : CompCall) ∈
        (handleChangedComponentProperties components hs ver changed).compCalls := by
  intro components
  induction components with
  | nil => intro hkm _ _; simp at hkm
  | cons e rest ih =>
    intro hkm hcm hno handler hcl
    obtain ⟨ck, cws⟩ := e
    have hheadno : ∀ dv2, (ck, dv2) ∈ changed → ∀ handler2, hlookup hs ck = some handler2 →
        handler2 dv2 ver ≠ HOutcome.throws :=
      fun dv2 hdv => hno ck cws (by simp) dv2 hdv
    have htailno : NoCompThrow rest hs ver changed :=
      fun ck2 cws2 hmem => hno ck2 cws2 (List.mem_cons_of_mem _ hmem)
    have ht : (processChanged hs ck cws ver changed).threw = false :=
      processChanged_threw hheadno
    simp only [handleChangedComponentProperties, ht, Bool.false_eq_true, if_false,
      DispatchOut.app_compCalls, List.mem_append]
    rcases List.mem_cons.mp hkm with h1 | h1
    · injection h1 with hck hws
      subst hck
      subst hws
      exact Or.inl (processChanged_compCall_mem hcm hheadno hcl)
    · exact Or.inr (ih h1 hcm htailno hcl)

theorem hlookup_mem_keys {α : Type} {m : List (String × α)} {key : String} {v : α}
    (h : hlookup m key = some v) : key ∈ m.map Prod.fst := by
  unfold hlookup at h
  cases hf : m.find? (fun e => e.1 == key) with
  | none => rw [hf] at h; simp at h
  | some e =>
    have hmem := List.mem_of_find?_eq_some hf
    have hpred := List.find?_some hf
    simp only [beq_iff_eq] at hpred
    exact List.mem_map.mpr ⟨e, hmem, hpred⟩

theorem connectFinish_iterate_subs (m : String) (n : Nat) :
    ∀ s : ReplaySubject DisconnectEvent ReconnectSub,
      ((connectFinish m)^[n] s).subs = s.subs ++ List.replicate n ⟨m⟩ := by
  induction n with
  | zero => intro s; simp
  | succ k ih =>
    intro s
    rw [Function.iterate_succ_apply, ih]
    simp [connectFinish, ReplaySubject.subscribe, List.replicate_succ]

/-- C4: the initial-connect retry helper performs no fresh attempt: `retry(p, n)`
returns `p` itself after attaching `n` catch handlers that each return the same
`p`, so `DeviceClient.create` observes exactly the original attempt's result,
and every derived retry-slot promise settles with that same original outcome. -/
theorem spec_C4_retry_no_fresh_attempt {ε α : Type} (p : JsPromise ε α) (n : Nat) :
    (retry p n).1 = p
    ∧ ((retry p n).1).outcome = p.outcome
    ∧ (retry p n).2.length = n
    ∧ (∀ q, q ∈ (retry p n).2 → q.outcome = p.outcome) := by
  refine ⟨rfl, rfl, by simp [retry], ?_⟩
  intro q hq
  simp only [retry, List.mem_map, List.mem_range] at hq
  obtain ⟨i, _, hqe⟩ := hq
  rw [← hqe]
  cases hout : p.outcome with
  | resolved a => simp [catchP, hout]
  | rejected e => simp [catchP, hout, retryHandler]

/-- C4 witness: for the rejected promise with id 0, the first derived catch
promise (id 1) settles with the same rejected outcome. -/
theorem spec_C4_retry_no_fresh_attempt_witness :
    (⟨1, POutcome.rejected ()⟩ : JsPromise Unit Nat) ∈
      (retry (⟨0, POutcome.rejected ()⟩ : JsPromise Unit Nat) 3).2
    ∧ (⟨1, POutcome.rejected ()⟩ : JsPromise Unit Nat).outcome =
      (⟨0, POutcome.rejected ()⟩ : JsPromise Unit Nat).outcome :=
  ⟨by decide,
   (spec_C4_retry_no_fresh_attempt (⟨0, POutcome.rejected ()⟩ : JsPromise Unit Nat) 3).2.2.2
     _ (by decide)⟩

/-- C6 counterexample: registering the already-registered key `a` does not fail
with any error — it succeeds and silently replaces the stored
writeable-property list. -/
theorem spec_C6_register_duplicate_counterexample :
    registerComponent ⟨"m", [("a", ["p"])]⟩ "a" ["q"] =
      Except.ok ⟨"m", [("a", ["q"])]⟩ := rfl

/-- C6 amended: registering a component whose key is already registered does
not fail (no duplicate check exists — the only error is the modelId guard); it
silently replaces the existing registration in place: the new
writeableProperties overwrite the old and the component count is unchanged. -/
theorem spec_C6_register_duplicate_replaces (st : ClientState) (key : String)
    (ws old : List String) (hm : ¬ st.modelId = "")
    (hold : hlookup st.components key = some old) :
    registerComponent st key ws =
      Except.ok ⟨st.modelId, setAssoc st.components key ws⟩
    ∧ hlookup (setAssoc st.components key ws) key = some ws
    ∧ (setAssoc st.components key ws).length = st.components.length := by
  refine ⟨?_, hlookup_setAssoc_self _ _ _, ?_⟩
  · simp [registerComponent, hm]
  · exact setAssoc_length_of_mem _ _ _ (hlookup_mem_keys hold)

/-- C6 witness: replacing the registration of `a` at a concrete state. -/
theorem spec_C6_register_duplicate_replaces_witness :
    registerComponent ⟨"m", [("a", ["p"])]⟩ "a" ["x"] =
      Except.ok ⟨"m", setAssoc [("a", ["p"])] "a" ["x"]⟩
    ∧ hlookup (setAssoc [("a", ["p"])] "a" ["x"]) "a" = some ["x"]
    ∧ (setAssoc ([("a", ["p"])] : List (String × List String)) "a" ["x"]).length =
      ([("a", ["p"])] : List (String × List String)).length :=
  spec_C6_register_duplicate_replaces ⟨"m", [("a", ["p"])]⟩ "a" ["x"] ["p"]
    (by decide) (by decide)

/-- C7: `filterTwinMeta` (the spec's `stripMetadata`) is idempotent — rebuilding
a JS object from the stripped pair sequence and stripping it again yields
exactly the same ordered pair sequence. -/
theorem spec_C7_stripMetadata_idempotent (t : JVal)
    (hnd : ((filterTwinMeta t).map Prod.fst).Nodup) :
    filterTwinMeta (JVal.obj (objFromEntries (filterTwinMeta t))) = filterTwinMeta t := by
  rw [objFromEntries_of_nodup _ hnd, filterTwinMeta_obj]
  apply List.filter_eq_self.mpr
  intro e he
  exact (List.mem_filter.mp he).2

/-- C7 witness: idempotence at a concrete tree carrying metadata keys. -/
theorem spec_C7_stripMetadata_idempotent_witness :
    ((filterTwinMeta (JVal.obj [("$version", JVal.num 5), ("__t", JVal.str "c"),
        ("temp", JVal.num 21)])).map Prod.fst).Nodup
    ∧ filterTwinMeta (JVal.obj (objFromEntries (filterTwinMeta (JVal.obj
        [("$version", JVal.num 5), ("__t", JVal.str "c"), ("temp", JVal.num 21)])))) =
      filterTwinMeta (JVal.obj [("$version", JVal.num 5), ("__t", JVal.str "c"),
        ("temp", JVal.num 21)]) :=
  ⟨by decide,
   spec_C7_stripMetadata_idempotent
     (JVal.obj [("$version", JVal.num 5), ("__t", JVal.str "c"), ("temp", JVal.num 21)])
     (by decide)⟩

/-- C10: `isWritablePropertyResponse` is not total — on `null` it throws a
`TypeError` (because `typeof null` is `'object'` and `in` is then applied to
`null`) instead of returning false; every non-null primitive yields `false`;
a non-null object yields `true` exactly when all four ack fields are present. -/
theorem spec_C10_isWritablePropertyResponse_null_throws :
    isWritablePropertyResponse JVal.null = .error .typeError
    ∧ (∀ b, isWritablePropertyResponse (JVal.bool b) = .ok false)
    ∧ (∀ n, isWritablePropertyResponse (JVal.num n) = .ok false)
    ∧ (∀ s, isWritablePropertyResponse (JVal.str s) = .ok false)
    ∧ (∀ fields, isWritablePropertyResponse (JVal.obj fields) =
        .ok (hasEntry fields "ac" && hasEntry fields "ad" && hasEntry fields "av"
          && hasEntry fields "value")) :=
  ⟨rfl, fun _ => rfl, fun _ => rfl, fun _ => rfl, fun _ => rfl⟩

/-- C8: every completed `connect()` execution adds one reconnect subscription on
`disconnected$` and none is ever removed: after `n` executions starting from a
fresh client, one disconnect event invokes exactly `n` reconnect closures (each
calling `connect(modelId)` again); the subscriber count grows by `n` from any
starting state; and because the subject replays its buffered last value, a new
subscription fires immediately when a disconnect has already been observed. -/
theorem spec_C8_reconnect_subscription_growth (m : String) (n : Nat)
    (ev : DisconnectEvent) (s : ReplaySubject DisconnectEvent ReconnectSub)
    (h : ReconnectSub) (a : DisconnectEvent) :
    (((connectFinish m)^[n] freshDisconnectedSubject).next ev).2 = List.replicate n ⟨m⟩
    ∧ ((connectFinish m)^[n] s).subs.length = s.subs.length + n
    ∧ (s.last = some a → (s.subscribe h).2 = [a]) := by
  refine ⟨?_, ?_, ?_⟩
  · simp [ReplaySubject.next, connectFinish_iterate_subs, freshDisconnectedSubject]
  · simp [connectFinish_iterate_subs]
  · intro hl
    simp [ReplaySubject.subscribe, hl]

/-- C8 witness: two connect executions then one disconnect yields two reconnect
invocations, and a subscription made after a buffered disconnect fires at once. -/
theorem spec_C8_reconnect_subscription_growth_witness :
    (((connectFinish "model")^[2] freshDisconnectedSubject).next
        DisconnectEvent.noError).2 = List.replicate 2 ⟨"model"⟩
    ∧ ((⟨[], some DisconnectEvent.noError⟩ :
        ReplaySubject DisconnectEvent ReconnectSub).subscribe ⟨"model"⟩).2 =
      [DisconnectEvent.noError] :=
  ⟨(spec_C8_reconnect_subscription_growth "model" 2 DisconnectEvent.noError
      ⟨[], some DisconnectEvent.noError⟩ ⟨"model"⟩ DisconnectEvent.noError).1,
   (spec_C8_reconnect_subscription_growth "model" 2 DisconnectEvent.noError
      ⟨[], some DisconnectEvent.noError⟩ ⟨"model"⟩ DisconnectEvent.noError).2.2 rfl⟩

/-- C9 counterexample: a twin tree whose component subtree holds a user property
named `update` — the raw subtree handed to the component-change handler still
contains that property, so it is not true that `update` never appears in deltas
handed to handlers. -/
theorem spec_C9_update_reaches_component_handler_counterexample :
    (handleChangedComponentProperties [("compA", [])]
        (addComponentChangeHandler [] "compA" (fun _ _ => HOutcome.ok none)) 5
        [("compA", JVal.obj [("update", JVal.num 7)])]).compCalls =
      [⟨"compA", JVal.obj [("update", JVal.num 7)], 5⟩]
    ∧ hasEntry [("update", JVal.num 7)] "update" = true :=
  ⟨rfl, rfl⟩

theorem filtered_normalized_no_update {es mapped : Entries}
    (hne : normalizeEntries (es.filter
      (fun e => (e.1 != TWIN_VERSION_KEY) && (e.1 != TWIN_COMPONENT_MARKER_KEY)
        && (e.1 != "update"))) = .ok mapped) :
    "update" ∉ (objFromEntries mapped).map Prod.fst := by
  intro hmem
  have h3 := objFromEntries_keys_subset mapped "update" hmem
  rw [normalizeEntries_keys hne] at h3
  rcases List.mem_map.mp h3 with ⟨e, he, hfst⟩
  have hp := (List.mem_filter.mp he).2
  rw [hfst] at hp
  simp at hp

theorem normalizeComponentState_no_update {t : JVal} {res : Entries}
    (h : normalizeComponentState t = .ok res) : "update" ∉ res.map Prod.fst := by
  cases t with
  | null =>
    simp [normalizeComponentState, bind, Except.bind, Functor.map, Except.map] at h
  | bool b =>
    simp only [normalizeComponentState, bind, Except.bind, Functor.map, Except.map,
      jsOwnEntries] at h
    cases hne : normalizeEntries (([] : Entries).filter
        (fun e => (e.1 != TWIN_VERSION_KEY) && (e.1 != TWIN_COMPONENT_MARKER_KEY)
          && (e.1 != "update"))) with
    | error err => rw [hne] at h; simp at h
    | ok mapped =>
      rw [hne] at h
      simp only [pure, Except.pure, Except.ok.injEq] at h
      rw [← h]
      exact filtered_normalized_no_update hne
  | num nn =>
    simp only [normalizeComponentState, bind, Except.bind, Functor.map, Except.map,
      jsOwnEntries] at h
    cases hne : normalizeEntries (([] : Entries).filter
        (fun e => (e.1 != TWIN_VERSION_KEY) && (e.1 != TWIN_COMPONENT_MARKER_KEY)
          && (e.1 != "update"))) with
    | error err => rw [hne] at h; simp at h
    | ok mapped =>
      rw [hne] at h
      simp only [pure, Except.pure, Except.ok.injEq] at h
      rw [← h]
      exact filtered_normalized_no_update hne
  | str ss =>
    simp only [normalizeComponentState, bind, Except.bind, Functor.map, Except.map,
      jsOwnEntries] at h
    cases hne : normalizeEntries ((ss.data.enum.map
        (fun e => (toString e.1, JVal.str (String.mk [e.2])))).filter
        (fun e => (e.1 != TWIN_VERSION_KEY) && (e.1 != TWIN_COMPONENT_MARKER_KEY)
          && (e.1 != "update"))) with
    | error err => rw [hne] at h; simp at h
    | ok mapped =>
      rw [hne] at h
      simp only [pure, Except.pure, Except.ok.injEq] at h
      rw [← h]
      exact filtered_normalized_no_update hne
  | obj fields =>
    simp only [normalizeComponentState, bind, Except.bind, Functor.map, Except.map,
      jsOwnEntries] at h
    cases hne : normalizeEntries (fields.filter
        (fun e => (e.1 != TWIN_VERSION_KEY) && (e.1 != TWIN_COMPONENT_MARKER_KEY)
          && (e.1 != "update"))) with
    | error err => rw [hne] at h; simp at h
    | ok mapped =>
      rw [hne] at h
      simp only [pure, Except.pure, Except.ok.injEq] at h
      rw [← h]
      exact filtered_normalized_no_update hne

/-- C9 amended: `filterTwinMeta` and `normalizeComponentState` drop every entry
keyed exactly `update`, so that key never appears in the stripped metadata
pairs, in normalized state, in per-property acknowledgement dispatch (property
handler invocations), or in automatic ack reports — but the raw component
subtree handed to a component-change handler is not filtered and may still
contain it. -/
theorem spec_C9_update_dropped_amended :
    (∀ t : JVal, "update" ∉ (filterTwinMeta t).map Prod.fst)
    ∧ (∀ (t : JVal) (res : Entries), normalizeComponentState t = .ok res →
        "update" ∉ res.map Prod.fst)
    ∧ (∀ (components : List (String × List String)) (hs : HandlerMap) (ver : Int)
        (changed : Entries) (c : PropCall),
        c ∈ (handleChangedComponentProperties components hs ver changed).propCalls →
        c.propertyKey ≠ "update")
    ∧ (∀ (components : List (String × List String)) (hs : HandlerMap) (ver : Int)
        (changed : Entries) (r : Report),
        r ∈ (handleChangedComponentProperties components hs ver changed).reports →
        r.propertyKey ≠ "update") := by
  refine ⟨?_, ?_, ?_, ?_⟩
  · intro t hmem
    exact absurd (keepTwinKey_of_mem_filterTwinMeta hmem) (by decide)
  · intro t res h
    exact normalizeComponentState_no_update h
  · intro components hs ver changed c hc
    obtain ⟨_, _, _, _, _, hkeep⟩ := handleChanged_propCalls_mem hc
    intro hu
    rw [hu] at hkeep
    exact absurd hkeep (by decide)
  · intro components hs ver changed r hr
    obtain ⟨_, _, _, _, _, hkeep⟩ := handleChanged_reports_mem hr
    intro hu
    rw [hu] at hkeep
    exact absurd hkeep (by decide)

/-- C9 witness: normalizing a concrete subtree containing `update` drops it. -/
theorem spec_C9_update_dropped_amended_witness :
    "update" ∉ ([("temp", JVal.num 1)] : Entries).map Prod.fst :=
  spec_C9_update_dropped_amended.2.1
    (JVal.obj [("update", JVal.num 5), ("temp", JVal.num 1)])
    [("temp", JVal.num 1)] rfl

/-- C1 counterexample: component `compA` declares the writable property
`update`; the notification delta contains it, yet `filterTwinMeta` silently
drops the key before the acknowledgement loop, so zero reported-patch calls are
made instead of exactly one. -/
theorem spec_C1_auto_ack_counterexample :
    (handleChangedComponentProperties [("compA", ["update"])] [] 5
      [("compA", JVal.obj [("update", JVal.num 21)])]).reports = [] := rfl

/-- C1 amended: for a registered component `(k, ws)` and a writable property
`P ∈ ws` present in the delta under `k`, the dispatch makes exactly one
reported-patch call for `P` whose envelope is exactly the default success
envelope (value, ac 200, the success description, av = notification version) —
provided `P` is not a protocol metadata key (version key, component marker,
`update`, or `$`-prefixed, which `filterTwinMeta` silently drops), no
component-change handler throws, and the handler the dispatch finds under
`get(P)` is absent or resolves without returning overrides.  The patch sent to
the transport merges that envelope with the component marker under `k`. -/
theorem spec_C1_auto_ack_amended
    {components : List (String × List String)} {hs : HandlerMap} {ver : Int}
    {changed : Entries} {k P : String} {ws : List String} {sub : Entries} {v : JVal}
    (hndk : (components.map Prod.fst).Nodup)
    (hkm : (k, ws) ∈ components)
    (hndc : (changed.map Prod.fst).Nodup)
    (hcm : (k, JVal.obj sub) ∈ changed)
    (hnds : (sub.map Prod.fst).Nodup)
    (hp : (P, v) ∈ sub)
    (hpw : P ∈ ws)
    (hkeep : keepTwinKey P = true)
    (hno : NoCompThrow components hs ver changed)
    (hph : ∀ handler, hlookup hs P = some handler → handler v ver = HOutcome.ok none) :
    (handleChangedComponentProperties components hs ver changed).reports.filter
        (forKP k P) = [⟨k, P, successAck P v ver⟩]
    ∧ Report.patch ⟨k, P, successAck P v ver⟩ =
      [(k, JVal.obj (jsSpread TWIN_COMPONENT_MARKER
        [(P, JVal.obj (successAck P v ver))]))] := by
  refine ⟨?_, rfl⟩
  rw [handleChanged_filter hndk hkm hndc hcm hno]
  rw [processProps_filter (filterTwinMeta_obj_keys_nodup hnds)
    (mem_filterTwinMeta_obj hp hkeep) hpw]
  cases hcl : hlookup hs P with
  | none => simp [ackEnvelopeFor, hcl]
  | some handler =>
    have hok := hph handler hcl
    simp [ackEnvelopeFor, hcl, hok, jsSpread_nil_right]

/-- C1 witness: the spec's scenario — version 5, delta
`\x7bcompA: \x7btemp: 21\x7d\x7d`, `compA` registered with writable `temp`, no
handlers — produces exactly the 200 envelope for `temp`. -/
theorem spec_C1_auto_ack_amended_witness :
    (handleChangedComponentProperties [("compA", ["temp"])] [] 5
        [("compA", JVal.obj [("temp", JVal.num 21)])]).reports.filter
        (forKP "compA" "temp") =
      [⟨"compA", "temp", successAck "temp" (JVal.num 21) 5⟩]
    ∧ Report.patch ⟨"compA", "temp", successAck "temp" (JVal.num 21) 5⟩ =
      [("compA", JVal.obj (jsSpread TWIN_COMPONENT_MARKER
        [("temp", JVal.obj (successAck "temp" (JVal.num 21) 5))]))] :=
  @spec_C1_auto_ack_amended [("compA", ["temp"])] [] 5
    [("compA", JVal.obj [("temp", JVal.num 21)])] "compA" "temp" ["temp"]
    [("temp", JVal.num 21)] (JVal.num 21)
    (by decide) (by simp) (by decide) (by simp) (by decide) (by simp) (by decide)
    (by decide)
    (by intro ck cws _ dv _ handler hcl; simp [hlookup] at hcl)
    (by intro handler hcl; simp [hlookup] at hcl)

/-- C2 (code bug): `addComponentPropertyChangeHandler` stores the handler under
the combined key `compA|temp`, but the acknowledgement loop looks it up under
`get(propertyKey)` = `temp`, so the registered handler is never invoked (no
property-handler call is recorded) and its returned override `\x7bac: 202\x7d` is
not merged — the default 200 envelope is reported instead. -/
theorem spec_C2_property_handler_never_invoked :
    (handleChangedComponentProperties [("compA", ["temp"])]
        (addComponentPropertyChangeHandler [] "compA" "temp"
          (fun _ _ => HOutcome.ok (some [("ac", JVal.num 202)]))) 5
        [("compA", JVal.obj [("temp", JVal.num 21)])]).propCalls = []
    ∧ (handleChangedComponentProperties [("compA", ["temp"])]
        (addComponentPropertyChangeHandler [] "compA" "temp"
          (fun _ _ => HOutcome.ok (some [("ac", JVal.num 202)]))) 5
        [("compA", JVal.obj [("temp", JVal.num 21)])]).reports =
      [⟨"compA", "temp", successAck "temp" (JVal.num 21) 5⟩]
    ∧ hlookup (addComponentPropertyChangeHandler [] "compA" "temp"
        (fun _ _ => HOutcome.ok (some [("ac", JVal.num 202)]))) "temp" = none :=
  ⟨rfl, rfl, rfl⟩

/-- C3: when the handler the dispatch finds for writable property `P` throws,
the error is caught at the dispatch boundary (the run completes, nothing
propagates) and exactly the default failure envelope is reported for `P`:
value, ac 400, the failure description, av = notification version, with no
handler overrides applied. -/
theorem spec_C3_handler_throw_reports_400
    {components : List (String × List String)} {hs : HandlerMap} {ver : Int}
    {changed : Entries} {k P : String} {ws : List String} {sub : Entries} {v : JVal}
    (hndk : (components.map Prod.fst).Nodup)
    (hkm : (k, ws) ∈ components)
    (hndc : (changed.map Prod.fst).Nodup)
    (hcm : (k, JVal.obj sub) ∈ changed)
    (hnds : (sub.map Prod.fst).Nodup)
    (hp : (P, v) ∈ sub)
    (hpw : P ∈ ws)
    (hkeep : keepTwinKey P = true)
    (hno : NoCompThrow components hs ver changed)
    {handler : Handler} (hcl : hlookup hs P = some handler)
    (hthrow : handler v ver = HOutcome.throws) :
    (handleChangedComponentProperties components hs ver changed).threw = false
    ∧ (handleChangedComponentProperties components hs ver changed).reports.filter
        (forKP k P) = [⟨k, P, failureAck P v ver⟩] := by
  refine ⟨handleChanged_threw hno, ?_⟩
  rw [handleChanged_filter hndk hkm hndc hcm hno]
  rw [processProps_filter (filterTwinMeta_obj_keys_nodup hnds)
    (mem_filterTwinMeta_obj hp hkeep) hpw]
  simp [ackEnvelopeFor, hcl, hthrow]

/-- C3 witness: a throwing handler stored under the bare key `temp` (where the
dispatch actually looks) yields exactly the 400 envelope, without aborting. -/
theorem spec_C3_handler_throw_reports_400_witness :
    (handleChangedComponentProperties [("compA", ["temp"])]
        [("temp", fun _ _ => HOutcome.throws)] 5
        [("compA", JVal.obj [("temp", JVal.num 21)])]).threw = false
    ∧ (handleChangedComponentProperties [("compA", ["temp"])]
        [("temp", fun _ _ => HOutcome.throws)] 5
        [("compA", JVal.obj [("temp", JVal.num 21)])]).reports.filter
        (forKP "compA" "temp") =
      [⟨"compA", "temp", failureAck "temp" (JVal.num 21) 5⟩] :=
  @spec_C3_handler_throw_reports_400 [("compA", ["temp"])]
    [("temp", fun _ _ => HOutcome.throws)] 5
    [("compA", JVal.obj [("temp", JVal.num 21)])] "compA" "temp" ["temp"]
    [("temp", JVal.num 21)] (JVal.num 21)
    (by decide) (by simp) (by decide) (by simp) (by decide) (by simp) (by decide)
    (by decide)
    (by
      intro ck cws hck dv _ handler hcl
      simp only [List.mem_singleton, Prod.mk.injEq] at hck
      rw [hck.1] at hcl
      simp [hlookup] at hcl)
    (fun _ _ => HOutcome.throws) rfl rfl

/-- C5: a property `P` outside the writeable list of the component registered
for its subtree gets no automatic acknowledgement patch, yet `P` is still
contained in the raw delta handed to that component's component-change
handler. -/
theorem spec_C5_nonwritable_observed_not_acked
    {components : List (String × List String)} {hs : HandlerMap} {ver : Int}
    {changed : Entries} {k P : String} {ws : List String} {sub : Entries} {v : JVal}
    (hndk : (components.map Prod.fst).Nodup)
    (hkm : (k, ws) ∈ components)
    (hcm : (k, JVal.obj sub) ∈ changed)
    (hp : (P, v) ∈ sub)
    (hpw : P ∉ ws)
    (hno : NoCompThrow components hs ver changed)
    {handler : Handler} (hcl : hlookup hs k = some handler) :
    (∀ r ∈ (handleChangedComponentProperties components hs ver changed).reports,
      ¬(r.componentKey = k ∧ r.propertyKey = P))
    ∧ (⟨k, JVal.obj sub, ver⟩ : CompCall) ∈
        (handleChangedComponentProperties components hs ver changed).compCalls
    ∧ (P, v) ∈ sub := by
  refine ⟨?_, ?_, hp⟩
  · rintro r hr ⟨h1, h2⟩
    obtain ⟨ck2, cws2, hmem, g1, g2, _⟩ := handleChanged_reports_mem hr
    have hck : ck2 = k := g1.symm.trans h1
    subst hck
    have hws : cws2 = ws := assoc_mem_functional hndk hmem hkm
    rw [hws] at g2
    exact hpw (h2 ▸ g2)
  · exact handleChanged_compCall_mem hkm hcm hno hcl

/-- C5 witness: `temp` is not writable for `compA`, yet the component-change
handler receives the raw subtree that contains it. -/
theorem spec_C5_nonwritable_observed_not_acked_witness :
    (⟨"compA", JVal.obj [("temp", JVal.num 21)], 5⟩ : CompCall) ∈
      (handleChangedComponentProperties [("compA", ["other"])]
        [("compA", fun _ _ => HOutcome.ok none)] 5
        [("compA", JVal.obj [("temp", JVal.num 21)])]).compCalls
    ∧ ("temp", JVal.num 21) ∈ ([("temp", JVal.num 21)] : Entries) :=
  (@spec_C5_nonwritable_observed_not_acked [("compA", ["other"])]
      [("compA", fun _ _ => HOutcome.ok none)] 5
      [("compA", JVal.obj [("temp", JVal.num 21)])] "compA" "temp" ["other"]
      [("temp", JVal.num 21)] (JVal.num 21)
      (by decide) (by simp) (by simp) (by simp) (by decide)
      (by
        intro ck cws hck dv _ handler hcl
        simp only [List.mem_singleton, Prod.mk.injEq] at hck
        rw [hck.1] at hcl
        simp [hlookup] at hcl
        subst hcl
        simp)
      (fun _ _ => HOutcome.ok none) rfl).2
